import Mathlib

/-!
Verification development for the Open Graph image generator of this
repository (`src/.vitepress/generateOg.mts`).  The single function

  export async function genOg(title: string, output: string)

is shallowly embedded below.  The JavaScript string primitives it uses
(`String.prototype.trim`, `String.prototype.split` with the regular
expression `(.{0,30})(?:\s|$)` and one capture group, and
`String.prototype.replace` with the regular expression matching a
double-brace placeholder marker) are modelled on `List Char` following the
ECMAScript semantics of those operations.  Strings are modelled as
sequences of Unicode scalar values (UTF-16 surrogate-pair indexing is
abstracted away).  The filesystem effects (`existsSync`, recursive
`mkdirSync`, the file write performed by the `sharp` pipeline) are
modelled by an explicit filesystem state; the `sharp` rasterizer itself is
external to the repository and is abstracted as a parameter that either
succeeds or fails.
-/

/-- The four ECMAScript line terminators, which the regexp atom `.`
(without the `s` flag) does not match. -/
def isLineTerm (c : Char) : Bool :=
  c = '\u000A' || c = '\u000D' || c = '\u2028' || c = '\u2029'

/-- Whether the regexp atom `.` matches the character. -/
def isDotChar (c : Char) : Bool :=
  !(isLineTerm c)

/-- The ECMAScript white-space class `\s` (WhiteSpace ∪ LineTerminator),
which is also the set removed by `String.prototype.trim`. -/
def isJsWs (c : Char) : Bool :=
  isLineTerm c || c = '\u0009' || c = '\u000B' || c = '\u000C' ||
  c = ' ' || c = '\u00A0' || c = '\u1680' ||
  (0x2000 ≤ c.toNat && c.toNat ≤ 0x200A) ||
  c = '\u202F' || c = '\u205F' || c = '\u3000' || c = '\uFEFF'

/-- `String.prototype.trim`: drop `\s`-characters from both ends. -/
def jsTrim (l : List Char) : List Char :=
  ((l.dropWhile isJsWs).reverse.dropWhile isJsWs).reverse

/-- Whether the regexp `(.{0,30})(?:\s|$)` matches at offset `q` of `s`
consuming exactly `n` characters for the group `.{0,30}`: the `n`
characters starting at `q` are all matched by `.`, and the position
`q + n` is either the end of the input or carries a `\s` character. -/
def validN (s : List Char) (q n : Nat) : Bool :=
  n ≤ s.length - q &&
  ((s.drop q).take n).all isDotChar &&
  (match s.drop (q + n) with
   | [] => true
   | c :: _ => isJsWs c)

/-- Largest `n ≤ k` satisfying `p` (the greedy backtracking search of the
quantifier `.{0,30}`). -/
def searchDown (p : Nat → Bool) : Nat → Option Nat
  | 0 => if p 0 then some 0 else none
  | n + 1 => if p (n + 1) then some (n + 1) else searchDown p n

/-- The group width chosen by the regexp `(.{0,30})(?:\s|$)` when matched
at offset `q` of `s` (greedy: the largest valid width wins). -/
def splitMatchN (s : List Char) (q : Nat) : Option Nat :=
  searchDown (validN s q) (min 30 (s.length - q))

/-- End position of a match at offset `q` with group width `n`: the
alternative `\s` consumes one character when it matched, the alternative
`$` consumes none. -/
def matchEnd (s : List Char) (q n : Nat) : Nat :=
  if q + n < s.length then q + n + 1 else q + n

/-- The loop of `String.prototype.split` (ECMAScript `RegExpSplit`) for a
separator regexp with one capture group: `p` is the end of the previous
match, `q` the current scan position.  Between matches the unmatched
substring `s[p..q)` is emitted, followed by the capture; after the loop
the tail `s[p..]` is emitted.  The scan advances by one on a failed match
attempt, so every step consumes fuel at most `s.length + 1`. -/
def splitGo (s : List Char) : Nat → Nat → Nat → List String
  | 0, p, _ => [⟨s.drop p⟩]
  | fuel + 1, p, q =>
    if q < s.length then
      match splitMatchN s q with
      | none => splitGo s fuel p (q + 1)
      | some n =>
        ⟨(s.drop p).take (q - p)⟩ :: ⟨(s.drop q).take n⟩ ::
          splitGo s fuel (matchEnd s q n) (matchEnd s q n)
    else
      [⟨s.drop p⟩]

/-- Model of `s.split(/(.{0,30})(?:\s|$)/g)`.  On the empty string the regexp
matches, so the ECMAScript algorithm returns the empty array. -/
def jsSplit30 (s : List Char) : List String :=
  if s.isEmpty then [] else splitGo s (s.length + 1) 0 0

/-- Model of `.filter(Boolean)`: keep the truthy (non-empty) strings. -/
def filterB (l : List String) : List String :=
  l.filter (fun x => x ≠ "")

/-- The `lines` value of `genOg`:
`title.trim().split(/(.{0,30})(?:\s|$)/g).filter(Boolean)`. -/
def titleLines (title : String) : List String :=
  filterB (jsSplit30 (jsTrim title.data))

/-- JavaScript `x || ''` applied to a possibly-absent string: `undefined`
and the empty string are falsy and yield `''`. -/
def jsOr : Option String → String
  | none => ""
  | some v => if v = "" then "" else v

/-- The property keys an object literal inherits from `Object.prototype`
(including the Annex B accessor and legacy methods present in Node). -/
def objectProtoKeys : List String :=
  ["constructor", "hasOwnProperty", "isPrototypeOf", "propertyIsEnumerable",
   "toLocaleString", "toString", "valueOf", "__proto__",
   "__defineGetter__", "__defineSetter__", "__lookupGetter__",
   "__lookupSetter__"]

/-- String form of the `Object.prototype` member inherited under the given
key, as substituted after the replace callback returns the truthy
inherited value and it is coerced to a string.  The exact text is
implementation-defined in JavaScript (a NativeFunction source string for
the built-in methods, the string form of the prototype object for the
accessor `__proto__`); the model fixes a definite stand-in of that shape.
Every such string is non-empty, which is the only fact the theorems use. -/
def jsProtoString (nm : String) : String :=
  if nm = "__proto__" then "[object Object]"
  else "function " ++ nm ++ "() \x7b [native code] \x7d"

/-- The lookup `data[name] || ''` for the object
`data = \x7b title1: lines[0], title2: lines[1], title3: lines[2] \x7d`,
composed with the string coercion applied to the replace callback return
value.  The lookup walks the JavaScript prototype chain: the three own
keys take the corresponding segment (`undefined` and `''` are falsy and
give `''`); a name of an inherited `Object.prototype` member yields that
truthy inherited value, whose string form (`jsProtoString`) is
substituted; every other name yields `undefined`, hence `''`. -/
def dataLookup (lines : List String) (name : String) : String :=
  if name = "title1" then jsOr lines[0]?
  else if name = "title2" then jsOr lines[1]?
  else if name = "title3" then jsOr lines[2]?
  else if name ∈ objectProtoKeys then jsProtoString name
  else ""

/-- The left brace character, U+007B. -/
def lbrace : Char := Char.ofNat 123

/-- The right brace character, U+007D. -/
def rbrace : Char := Char.ofNat 125

/-- Attempt to match the tail of a placeholder marker right after its two
opening braces: the pattern `([^\x7d]+)\x7d\x7d`.  The group is the
maximal non-empty run of non-`\x7d` characters and must be followed by two
closing braces; returns the group and the remaining input. -/
def matchMarker (s : List Char) : Option (String × List Char) :=
  if (s.takeWhile (fun c => c ≠ rbrace)).isEmpty then none
  else
    match s.dropWhile (fun c => c ≠ rbrace) with
    | c1 :: c2 :: rest =>
      if c1 = rbrace ∧ c2 = rbrace then
        some (⟨s.takeWhile (fun c => c ≠ rbrace)⟩, rest)
      else none
    | _ => none

/-- The scan of `String.prototype.replace` with the global regexp
`\x7b\x7b([^\x7d]+)\x7d\x7d`: at each position, if a marker begins there
its replacement `f name` is emitted and the scan continues after the
marker; otherwise one character is emitted and the scan advances by one.
The fuel decreases on every step; `fuel = s.length` always suffices. -/
def jsReplaceGo (f : String → String) : Nat → List Char → List Char
  | 0, l => l
  | _ + 1, [] => []
  | fuel + 1, c :: rest =>
    if c = lbrace then
      match rest with
      | c2 :: rest2 =>
        if c2 = lbrace then
          match matchMarker rest2 with
          | some nr => (f nr.1).data ++ jsReplaceGo f fuel nr.2
          | none => c :: jsReplaceGo f fuel rest
        else c :: jsReplaceGo f fuel rest
      | [] => [c]
    else c :: jsReplaceGo f fuel rest

/-- Model of `template.replace(/\x7b\x7b([^\x7d]+)\x7d\x7d/g, (_, name) => f(name))`. -/
def jsReplace (f : String → String) (l : List Char) : List Char :=
  jsReplaceGo f l.length l

/-- The `svg` value of `genOg`: the template with every placeholder marker
`\x7b\x7bname\x7d\x7d` replaced by `data[name] || ''`. -/
def renderSvg (ogSvg : String) (title : String) : String :=
  ⟨jsReplace (dataLookup (titleLines title)) ogSvg.data⟩

/-- A filesystem entry is a regular file or a directory. -/
inductive FsEntry
  | file
  | dir
deriving DecidableEq, Repr

/-- A filesystem path, as its list of components. -/
abbrev FsPath := List String

/-- The filesystem state: an association of paths to entries. -/
structure FS where
  entries : List (FsPath × FsEntry)
deriving DecidableEq, Repr

/-- Entry at a path, if any. -/
def FS.lookup (fs : FS) (p : FsPath) : Option FsEntry :=
  (fs.entries.find? (fun e => e.1 = p)).map (fun e => e.2)

/-- Model of `existsSync(p)`: whether any entry occupies the path. -/
def existsSync (fs : FS) (p : FsPath) : Bool :=
  (fs.lookup p).isSome

/-- Model of `dirname(p)` on component lists: the path without its last component. -/
def dirname (p : FsPath) : FsPath :=
  p.dropLast

/-- The non-empty initial segments of a path, shortest first — the chain
of directories `mkdirSync(..., \x7b recursive: true \x7d)` visits. -/
def dirChain (p : FsPath) : List FsPath :=
  (List.range p.length).map (fun i => p.take (i + 1))

/-- Model of `mkdirSync(dir, \x7b recursive: true \x7d)`: walk the directory chain,
skipping components that already exist as directories, creating the absent
ones, and throwing (modelled by the `some` error) as soon as a component
is occupied by a regular file.  The returned state keeps the directories
created before a failure. -/
def mkdirGo (fs : FS) : List FsPath → FS × Option String
  | [] => (fs, none)
  | d :: rest =>
    match fs.lookup d with
    | some FsEntry.dir => mkdirGo fs rest
    | some FsEntry.file => (fs, some "EEXIST")
    | none => mkdirGo ⟨(d, FsEntry.dir) :: fs.entries⟩ rest

/-- Path rendered as a string, for the `console` messages. -/
def pathToString (p : FsPath) : String :=
  String.intercalate "/" p

/-- A `console` event: `console.info` or `console.error`; the latter is
called in the source with a fixed message and the caught error as a second
argument. -/
inductive Event
  | info (msg : String)
  | error (msg : String) (cause : String)
deriving DecidableEq, Repr

/-- The observable outcome of a `genOg` call: the final filesystem, the
console log, and the error propagated to the caller, if any. -/
structure GenResult where
  fs : FS
  log : List Event
  thrown : Option String
deriving DecidableEq, Repr

/-- Shallow embedding of `genOg(title, output)`.  `raster` abstracts the
`sharp` pipeline `sharp(Buffer.from(svg)).resize(1440, 810).png()
.toFile(output)`: on success the output file comes into existence, on
failure the catch block logs `Failed to generate og image` with the cause.
The `mkdirSync` call is outside the `try`, so its failure propagates. -/
def genOg (raster : String → Except String Unit) (ogSvg : String)
    (title : String) (output : FsPath) (fs : FS) : GenResult :=
  if existsSync fs output then
    ⟨fs, [], none⟩
  else
    match mkdirGo fs (dirChain (dirname output)) with
    | (fs1, some e) => ⟨fs1, [], some e⟩
    | (fs1, none) =>
      let svg := renderSvg ogSvg title
      match raster svg with
      | Except.ok _ =>
        ⟨⟨(output, FsEntry.file) :: fs1.entries⟩,
          [Event.info ("Generating " ++ pathToString output)], none⟩
      | Except.error e =>
        ⟨fs1,
          [Event.info ("Generating " ++ pathToString output),
           Event.error "Failed to generate og image" e], none⟩

/-! ### Helper lemmas about the character classes and `trim` -/

theorem isDotChar_of_not_isJsWs (c : Char) (h : isJsWs c = false) :
    isDotChar c = true := by
  have hl : isLineTerm c = false := by
    cases hlt : isLineTerm c
    · rfl
    · rw [isJsWs, hlt] at h
      simp at h
  simp [isDotChar, hl]

theorem jsTrim_eq_nil_of_ws (l : List Char) (h : ∀ c ∈ l, isJsWs c = true) :
    jsTrim l = [] := by
  have hd : l.dropWhile isJsWs = [] := by
    induction l with
    | nil => rfl
    | cons a t ih =>
      rw [List.dropWhile_cons_of_pos (h a (List.mem_cons_self a t))]
      exact ih (fun c hc => h c (List.mem_cons_of_mem a hc))
  rw [jsTrim, hd]
  rfl

theorem jsTrim_eq_self (l : List Char)
    (h1 : ∀ x, l.head? = some x → isJsWs x = false)
    (h2 : ∀ x, l.getLast? = some x → isJsWs x = false) :
    jsTrim l = l := by
  have hd : l.dropWhile isJsWs = l := by
    cases l with
    | nil => rfl
    | cons a t => rw [List.dropWhile_cons_of_neg (by simp [h1 a rfl])]
  rw [jsTrim, hd]
  have hr : l.reverse.dropWhile isJsWs = l.reverse := by
    cases hrev : l.reverse with
    | nil => rfl
    | cons b t' =>
      have hb : l.getLast? = some b := by
        rw [← List.head?_reverse, hrev]
        rfl
      rw [List.dropWhile_cons_of_neg (by simp [h2 b hb])]
  rw [hr, List.reverse_reverse]

theorem jsTrim_eq_self_of_all (l : List Char)
    (h : ∀ c ∈ l, isJsWs c = false) : jsTrim l = l := by
  refine jsTrim_eq_self l (fun x hx => ?_) (fun x hx => ?_)
  · exact h x (by cases l with
      | nil => simp at hx
      | cons a t =>
        simp only [List.head?_cons, Option.some.injEq] at hx
        exact hx ▸ List.mem_cons_self a t)
  · obtain ⟨hne, hxeq⟩ :=
      List.mem_getLast?_eq_getLast (l := l) (x := x) (Option.mem_def.mpr hx)
    exact h x (hxeq ▸ List.getLast_mem hne)

/-! ### Helper lemmas about the greedy backtracking search -/

theorem searchDown_eq_some {p : Nat → Bool} :
    ∀ {k n : Nat}, searchDown p k = some n → p n = true ∧ n ≤ k := by
  intro k
  induction k with
  | zero =>
    intro n h
    by_cases hp : p 0 = true
    · simp [searchDown, hp] at h
      exact ⟨h ▸ hp, h ▸ Nat.le_refl 0⟩
    · simp [searchDown, hp] at h
  | succ k ih =>
    intro n h
    by_cases hp : p (k + 1) = true
    · simp [searchDown, hp] at h
      exact ⟨h ▸ hp, h ▸ Nat.le_refl (k + 1)⟩
    · simp only [searchDown, hp, if_false] at h
      obtain ⟨h1, h2⟩ := ih h
      exact ⟨h1, Nat.le_trans h2 (Nat.le_succ k)⟩

theorem searchDown_eq_none {p : Nat → Bool} :
    ∀ {k : Nat}, searchDown p k = none → ∀ m, m ≤ k → p m = false := by
  intro k
  induction k with
  | zero =>
    intro h m hm
    interval_cases m
    by_cases hp : p 0 = true
    · simp [searchDown, hp] at h
    · simpa using hp
  | succ k ih =>
    intro h m hm
    by_cases hp : p (k + 1) = true
    · simp [searchDown, hp] at h
    · simp only [searchDown, hp, if_false] at h
      rcases Nat.lt_or_ge m (k + 1) with hlt | hge
      · exact ih h m (Nat.lt_succ_iff.mp hlt)
      · have : m = k + 1 := Nat.le_antisymm hm hge
        simpa [this] using hp

/-! ### Computation lemmas for the title split -/

theorem strMk_nil_eq : (⟨[]⟩ : String) = "" := rfl

theorem strMk_ne_empty (u : List Char) (hu : u ≠ []) : (⟨u⟩ : String) ≠ "" := by
  intro h
  exact hu (congrArg String.data h)

theorem filterB_single (x : String) (hx : x ≠ "") :
    filterB ["", x, ""] = [x] := by
  simp [filterB, hx]

theorem filterB_pair (x y : String) (hx : x ≠ "") (hy : y ≠ "") :
    filterB ["", x, "", y, ""] = [x, y] := by
  simp [filterB, hx, hy]

theorem validN_whole (s : List Char) (hdot : ∀ c ∈ s, isDotChar c = true) :
    validN s 0 s.length = true := by
  simp only [validN, Nat.sub_zero, Nat.zero_add, List.drop_zero, List.take_length,
    List.drop_length, Bool.and_eq_true, decide_eq_true_eq]
  exact ⟨⟨Nat.le_refl _, List.all_eq_true.mpr hdot⟩, trivial⟩

theorem splitGo_step_match (s : List Char) (fuel p q n : Nat) (hq : q < s.length)
    (hn : splitMatchN s q = some n) :
    splitGo s (fuel + 1) p q =
      ⟨(s.drop p).take (q - p)⟩ :: ⟨(s.drop q).take n⟩ ::
        splitGo s fuel (matchEnd s q n) (matchEnd s q n) := by
  simp [splitGo, hq, hn]

theorem splitGo_step_fail (s : List Char) (fuel p q : Nat) (hq : q < s.length)
    (hn : splitMatchN s q = none) :
    splitGo s (fuel + 1) p q = splitGo s fuel p (q + 1) := by
  simp [splitGo, hq, hn]

theorem splitGo_step_done (s : List Char) (fuel p q : Nat) (hq : ¬ q < s.length) :
    splitGo s (fuel + 1) p q = [⟨s.drop p⟩] := by
  simp [splitGo, hq]

theorem jsSplit30_small (s : List Char) (h0 : s ≠ []) (h30 : s.length ≤ 30)
    (hdot : ∀ c ∈ s, isDotChar c = true) :
    jsSplit30 s = ["", ⟨s⟩, ""] := by
  obtain ⟨m, hm⟩ : ∃ m, s.length = m + 1 := by
    cases s with
    | nil => exact absurd rfl h0
    | cons a t => exact ⟨t.length, rfl⟩
  have hisE : s.isEmpty = false := by cases s <;> simp_all
  have hmatch : splitMatchN s 0 = some s.length := by
    have hv' : validN s 0 (m + 1) = true := by
      rw [← hm]
      exact validN_whole s hdot
    unfold splitMatchN
    rw [Nat.sub_zero, Nat.min_eq_right h30, hm]
    simp [searchDown, hv']
  have hend : matchEnd s 0 s.length = s.length := by simp [matchEnd]
  have h0lt : 0 < s.length := by omega
  simp only [jsSplit30, hisE, Bool.false_eq_true, if_false]
  rw [hm]
  rw [splitGo_step_match s (m + 1) 0 0 s.length h0lt hmatch, hend]
  rw [show splitGo s (m + 1) s.length s.length = [⟨s.drop s.length⟩] from
      splitGo_step_done s m s.length s.length (Nat.lt_irrefl _)]
  simp [List.drop_length, List.take_length, strMk_nil_eq]

theorem jsSplit30_break28 (u v : List Char) (c : Char)
    (hu : u.length = 28) (hv : v.length = 2) (hc : isJsWs c = true)
    (hud : ∀ x ∈ u, isJsWs x = false) (hvd : ∀ x ∈ v, isJsWs x = false) :
    jsSplit30 (u ++ c :: v) = ["", ⟨u⟩, "", ⟨v⟩, ""] := by
  obtain ⟨v0, v1, rfl⟩ : ∃ v0 v1, v = [v0, v1] := by
    cases v with
    | nil => simp at hv
    | cons a t =>
      cases t with
      | nil => simp at hv
      | cons b t2 =>
        cases t2 with
        | nil => exact ⟨a, b, rfl⟩
        | cons d t3 => simp at hv
  have hlen : (u ++ c :: [v0, v1]).length = 31 := by simp [hu]
  have hda : ∀ n : Nat, (u ++ c :: [v0, v1]).drop (28 + n) = (c :: [v0, v1]).drop n := by
    intro n
    rw [← hu, List.drop_append n]
  have hdrop28 : (u ++ c :: [v0, v1]).drop 28 = c :: [v0, v1] := hda 0
  have hdrop29 : (u ++ c :: [v0, v1]).drop 29 = [v0, v1] := hda 1
  have hdrop30 : (u ++ c :: [v0, v1]).drop 30 = [v1] := hda 2
  have hdrop31 : (u ++ c :: [v0, v1]).drop 31 = [] := hda 3
  have htake28 : (u ++ c :: [v0, v1]).take 28 = u := by
    rw [← hu]
    exact List.take_left u (c :: [v0, v1])
  have hv30 : validN (u ++ c :: [v0, v1]) 0 30 = false := by
    unfold validN
    rw [Nat.zero_add, hdrop30]
    simp [hvd v1 (by simp)]
  have hv29 : validN (u ++ c :: [v0, v1]) 0 29 = false := by
    unfold validN
    rw [Nat.zero_add, hdrop29]
    simp [hvd v0 (by simp)]
  have hv28 : validN (u ++ c :: [v0, v1]) 0 28 = true := by
    unfold validN
    rw [Nat.zero_add, hdrop28, List.drop_zero, htake28]
    simp only [hlen, hc, Bool.and_eq_true, decide_eq_true_eq]
    refine ⟨⟨by omega, List.all_eq_true.mpr ?_⟩, trivial⟩
    intro x hx
    exact isDotChar_of_not_isJsWs x (hud x hx)
  have hmatch0 : splitMatchN (u ++ c :: [v0, v1]) 0 = some 28 := by
    unfold splitMatchN
    rw [hlen]
    norm_num
    simp [searchDown, hv30, hv29, hv28]
  have hend0 : matchEnd (u ++ c :: [v0, v1]) 0 28 = 29 := by
    unfold matchEnd
    rw [hlen]
    norm_num
  have hv2 : validN (u ++ c :: [v0, v1]) 29 2 = true := by
    unfold validN
    rw [show (29 : Nat) + 2 = 31 from rfl, hdrop31, hdrop29]
    simp only [hlen, Bool.and_eq_true, decide_eq_true_eq]
    refine ⟨⟨by omega, List.all_eq_true.mpr ?_⟩, trivial⟩
    intro x hx
    exact isDotChar_of_not_isJsWs x (hvd x hx)
  have hmatch29 : splitMatchN (u ++ c :: [v0, v1]) 29 = some 2 := by
    unfold splitMatchN
    rw [hlen]
    norm_num
    simp [searchDown, hv2]
  have hend29 : matchEnd (u ++ c :: [v0, v1]) 29 2 = 31 := by
    unfold matchEnd
    rw [hlen]
    norm_num
  have hisE : (u ++ c :: [v0, v1]).isEmpty = false := by
    cases u <;> simp
  simp only [jsSplit30, hisE, Bool.false_eq_true, if_false, hlen]
  rw [show (31 : Nat) + 1 = 31 + 1 from rfl]
  rw [splitGo_step_match _ 31 0 0 28 (by rw [hlen]; omega) hmatch0, hend0]
  rw [show (31 : Nat) = 30 + 1 from rfl]
  rw [splitGo_step_match _ 30 29 29 2 (by rw [hlen]; omega) hmatch29, hend29]
  rw [show (30 : Nat) = 29 + 1 from rfl]
  rw [splitGo_step_done _ 29 31 31 (by rw [hlen]; omega)]
  rw [hdrop31, List.drop_zero, htake28, hdrop29]
  simp [strMk_nil_eq]

/-! ### Bounded segments when no whitespace-free run exceeds the soft limit -/

theorem splitMatchN_isSome (s : List Char) (q : Nat) (hq : q < s.length)
    (hdot : ∀ c ∈ s, isDotChar c = true)
    (hwin : ∀ r, r + 30 < s.length → ∃ c ∈ (s.drop r).take 31, isJsWs c = true) :
    ∃ n, splitMatchN s q = some n := by
  have hex : ∃ n, n ≤ min 30 (s.length - q) ∧ validN s q n = true := by
    by_cases hr : s.length ≤ q + 30
    · refine ⟨s.length - q, le_min (by omega) (Nat.le_refl _), ?_⟩
      unfold validN
      have h1 : q + (s.length - q) = s.length := by omega
      rw [h1, List.drop_length]
      simp only [Bool.and_eq_true, decide_eq_true_eq]
      refine ⟨⟨Nat.le_refl _, List.all_eq_true.mpr ?_⟩, trivial⟩
      intro x hx
      exact hdot x (List.mem_of_mem_drop (List.mem_of_mem_take hx))
    · push_neg at hr
      obtain ⟨c, hcmem, hcws⟩ := hwin q (by omega)
      obtain ⟨j, hj, hget⟩ := List.getElem_of_mem hcmem
      have hj' : j < min 31 (s.length - q) := by
        simpa [List.length_take, List.length_drop] using hj
      have hjm := Nat.lt_min.mp hj'
      refine ⟨j, le_min (by omega) (by omega), ?_⟩
      unfold validN
      have hjq : q + j < s.length := by omega
      have hcj : s[q + j] = c := by
        rw [← hget, List.getElem_take, List.getElem_drop]
      rw [List.drop_eq_getElem_cons hjq, hcj]
      simp only [hcws, Bool.and_eq_true, decide_eq_true_eq]
      refine ⟨⟨by omega, List.all_eq_true.mpr ?_⟩, trivial⟩
      intro x hx
      exact hdot x (List.mem_of_mem_drop (List.mem_of_mem_take hx))
  obtain ⟨n, hn, hv⟩ := hex
  cases hsd : searchDown (validN s q) (min 30 (s.length - q)) with
  | none =>
    have := searchDown_eq_none hsd n hn
    rw [hv] at this
    exact absurd this (by simp)
  | some n' => exact ⟨n', hsd⟩

theorem splitGo_pieces (s : List Char)
    (hdot : ∀ c ∈ s, isDotChar c = true)
    (hwin : ∀ r, r + 30 < s.length → ∃ c ∈ (s.drop r).take 31, isJsWs c = true) :
    ∀ fuel q, s.length ≤ q + fuel →
      ∀ str ∈ splitGo s fuel q q, str = "" ∨ str.length ≤ 30 := by
  intro fuel
  induction fuel with
  | zero =>
    intro q hfuel str hstr
    have : s.drop q = [] := List.drop_eq_nil_of_le (by omega)
    simp only [splitGo, this] at hstr
    simp only [List.mem_singleton] at hstr
    exact Or.inl (hstr.trans strMk_nil_eq)
  | succ fuel ih =>
    intro q hfuel str hstr
    by_cases hq : q < s.length
    · obtain ⟨n, hn⟩ := splitMatchN_isSome s q hq hdot hwin
      obtain ⟨hvn, hnle⟩ := searchDown_eq_some hn
      rw [splitGo_step_match s fuel q q n hq hn] at hstr
      simp only [List.mem_cons] at hstr
      rcases hstr with h1 | h2 | h3
      · left
        rw [h1, Nat.sub_self, List.take_zero]
      · right
        rw [h2]
        have : ((s.drop q).take n).length ≤ n := by
          simp [List.length_take, List.length_drop]
        calc (⟨(s.drop q).take n⟩ : String).length
            = ((s.drop q).take n).length := rfl
          _ ≤ n := this
          _ ≤ 30 := le_trans hnle (Nat.min_le_left _ _)
      · have hge : q + 1 ≤ matchEnd s q n := by
          unfold matchEnd
          split <;> omega
        exact ih (matchEnd s q n) (by omega) str h3
    · rw [splitGo_step_done s fuel q q hq] at hstr
      have : s.drop q = [] := List.drop_eq_nil_of_le (by omega)
      rw [this] at hstr
      simp only [List.mem_singleton] at hstr
      exact Or.inl (hstr.trans strMk_nil_eq)

/-! ### Helper lemmas for the placeholder substitution -/

theorem matchMarker_length (s : List Char) (nr : String × List Char)
    (h : matchMarker s = some nr) : nr.2.length + 2 ≤ s.length := by
  unfold matchMarker at h
  by_cases he : (s.takeWhile (fun c => c ≠ rbrace)).isEmpty
  · rw [if_pos he] at h
    exact absurd h (by simp)
  · rw [if_neg he] at h
    have hsplit : (s.takeWhile (fun c => c ≠ rbrace)).length
        + (s.dropWhile (fun c => c ≠ rbrace)).length = s.length := by
      rw [← List.length_append, List.takeWhile_append_dropWhile]
    cases hd : s.dropWhile (fun c => c ≠ rbrace) with
    | nil => rw [hd] at h; simp at h
    | cons c1 t =>
      cases t with
      | nil => rw [hd] at h; simp at h
      | cons c2 rest =>
        rw [hd] at h
        dsimp only at h
        by_cases hbb : c1 = rbrace ∧ c2 = rbrace
        · rw [if_pos hbb] at h
          have hr : nr.2 = rest := by
            cases h
            rfl
          have hrl : nr.2.length = rest.length := by rw [hr]
          rw [hd] at hsplit
          simp only [List.length_cons] at hsplit
          omega
        · rw [if_neg hbb] at h
          exact absurd h (by simp)

theorem jsReplaceGo_fuel (f : String → String) :
    ∀ fuel₁ fuel₂ l, l.length ≤ fuel₁ → l.length ≤ fuel₂ →
      jsReplaceGo f fuel₁ l = jsReplaceGo f fuel₂ l := by
  intro fuel₁
  induction fuel₁ with
  | zero =>
    intro fuel₂ l h1 h2
    have hnil : l = [] := List.eq_nil_of_length_eq_zero (by omega)
    subst hnil
    cases fuel₂ <;> rfl
  | succ fuel ih =>
    intro fuel₂ l h1 h2
    cases l with
    | nil => cases fuel₂ <;> rfl
    | cons c rest =>
      obtain ⟨k, rfl⟩ : ∃ k, fuel₂ = k + 1 := by
        cases fuel₂ with
        | zero => simp at h2
        | succ k => exact ⟨k, rfl⟩
      simp only [List.length_cons] at h1 h2
      by_cases hc : c = lbrace
      · subst hc
        cases rest with
        | nil => simp [jsReplaceGo]
        | cons c2 rest2 =>
          simp only [List.length_cons] at h1 h2
          by_cases hc2 : c2 = lbrace
          · subst hc2
            cases hmm : matchMarker rest2 with
            | some nr =>
              have hlen := matchMarker_length rest2 nr hmm
              simp only [jsReplaceGo, hmm, eq_self_iff_true, if_true]
              rw [ih k nr.2 (by omega) (by omega)]
            | none =>
              simp only [jsReplaceGo, hmm, eq_self_iff_true, if_true]
              rw [ih k (lbrace :: rest2) (by simp; omega) (by simp; omega)]
          · simp only [jsReplaceGo, eq_self_iff_true, if_true, hc2, if_false]
            rw [ih k (c2 :: rest2) (by simp; omega) (by simp; omega)]
      · simp only [jsReplaceGo, hc, if_false]
        rw [ih k rest (by omega) (by omega)]

theorem jsReplaceGo_cons_ne (f : String → String) (fuel : Nat) (c : Char)
    (rest : List Char) (hc : c ≠ lbrace) :
    jsReplaceGo f (fuel + 1) (c :: rest) = c :: jsReplaceGo f fuel rest := by
  simp [jsReplaceGo, hc]

theorem jsReplace_cons_ne (f : String → String) (c : Char) (rest : List Char)
    (hc : c ≠ lbrace) :
    jsReplace f (c :: rest) = c :: jsReplace f rest := by
  unfold jsReplace
  rw [show (c :: rest).length = rest.length + 1 from rfl]
  exact jsReplaceGo_cons_ne f rest.length c rest hc

theorem jsReplace_append_no_lb (f : String → String) (pre l : List Char)
    (hpre : ∀ ch ∈ pre, ch ≠ lbrace) :
    jsReplace f (pre ++ l) = pre ++ jsReplace f l := by
  induction pre with
  | nil => simp
  | cons c pre' ih =>
    rw [List.cons_append,
      jsReplace_cons_ne f c (pre' ++ l) (hpre c (List.mem_cons_self c pre')),
      ih (fun ch hch => hpre ch (List.mem_cons_of_mem c hch)), List.cons_append]

theorem matchMarker_of_shape (name rest : List Char) (hne : name ≠ [])
    (hn : ∀ ch ∈ name, ch ≠ rbrace) :
    matchMarker (name ++ rbrace :: rbrace :: rest) = some (⟨name⟩, rest) := by
  unfold matchMarker
  have hp : ∀ ch ∈ name, decide (ch ≠ rbrace) = true := by
    intro ch hch
    simp [hn ch hch]
  have ht : (name ++ rbrace :: rbrace :: rest).takeWhile (fun c => c ≠ rbrace)
      = name := by
    rw [List.takeWhile_append_of_pos hp, List.takeWhile_cons_of_neg (by simp),
      List.append_nil]
  have hd : (name ++ rbrace :: rbrace :: rest).dropWhile (fun c => c ≠ rbrace)
      = rbrace :: rbrace :: rest := by
    rw [List.dropWhile_append_of_pos hp, List.dropWhile_cons_of_neg (by simp)]
  rw [ht, hd]
  simp [hne]

theorem jsReplace_marker (f : String → String) (name rest : List Char)
    (hne : name ≠ []) (hn : ∀ ch ∈ name, ch ≠ rbrace) :
    jsReplace f (lbrace :: lbrace :: (name ++ rbrace :: rbrace :: rest)) =
      (f ⟨name⟩).data ++ jsReplace f rest := by
  unfold jsReplace
  simp only [List.length_cons]
  simp only [jsReplaceGo, matchMarker_of_shape name rest hne hn,
    eq_self_iff_true, if_true]
  rw [jsReplaceGo_fuel f ((name ++ rbrace :: rbrace :: rest).length + 1)
    rest.length rest (by simp; omega) (Nat.le_refl _)]

/-! ### Helper lemmas for the filesystem model -/

theorem FS.lookup_cons (entries : List (FsPath × FsEntry)) (d : FsPath)
    (e : FsEntry) (p : FsPath) :
    FS.lookup ⟨(d, e) :: entries⟩ p
      = if d = p then some e else FS.lookup ⟨entries⟩ p := by
  by_cases hd : d = p
  · unfold FS.lookup
    rw [List.find?_cons_of_pos _ (by simp [hd])]
    simp [hd]
  · unfold FS.lookup
    rw [List.find?_cons_of_neg _ (by simp [hd])]
    simp [hd]

theorem mkdirGo_ok (ds : List FsPath) :
    ∀ (fs fs1 : FS), mkdirGo fs ds = (fs1, none) →
    (∀ p e, fs.lookup p = some e → fs1.lookup p = some e) ∧
    (∀ d ∈ ds, fs1.lookup d = some FsEntry.dir) := by
  induction ds with
  | nil =>
    intro fs fs1 h
    unfold mkdirGo at h
    cases h
    exact ⟨fun p e hp => hp, fun d hd => absurd hd (List.not_mem_nil d)⟩
  | cons d rest ih =>
    intro fs fs1 h
    unfold mkdirGo at h
    cases hl : fs.lookup d with
    | some e =>
      cases e with
      | dir =>
        rw [hl] at h
        obtain ⟨hpres, hdirs⟩ := ih fs fs1 h
        refine ⟨hpres, fun x hx => ?_⟩
        rcases List.mem_cons.mp hx with rfl | hx'
        · exact hpres x FsEntry.dir hl
        · exact hdirs x hx'
      | file =>
        rw [hl] at h
        simp at h
    | none =>
      rw [hl] at h
      obtain ⟨hpres, hdirs⟩ := ih ⟨(d, FsEntry.dir) :: fs.entries⟩ fs1 h
      have hstep : ∀ p e, fs.lookup p = some e →
          FS.lookup ⟨(d, FsEntry.dir) :: fs.entries⟩ p = some e := by
        intro p e hp
        have hne : d ≠ p := by
          intro hdp
          rw [hdp, hp] at hl
          exact Option.noConfusion hl
        rw [FS.lookup_cons, if_neg hne]
        exact hp
      refine ⟨fun p e hp => hpres p e (hstep p e hp), fun x hx => ?_⟩
      rcases List.mem_cons.mp hx with rfl | hx'
      · exact hpres x FsEntry.dir (by rw [FS.lookup_cons, if_pos rfl])
      · exact hdirs x hx'

theorem mkdirGo_other (ds : List FsPath) :
    ∀ (fs fs1 : FS) (t : Option String), mkdirGo fs ds = (fs1, t) →
    ∀ p, p ∉ ds → fs1.lookup p = fs.lookup p := by
  induction ds with
  | nil =>
    intro fs fs1 t h p _
    unfold mkdirGo at h
    cases h
    rfl
  | cons d rest ih =>
    intro fs fs1 t h p hp
    have hpd : p ≠ d := fun hpd => hp (hpd ▸ List.mem_cons_self d rest)
    have hpr : p ∉ rest := fun hx => hp (List.mem_cons_of_mem d hx)
    unfold mkdirGo at h
    cases hl : fs.lookup d with
    | some e =>
      cases e with
      | dir =>
        rw [hl] at h
        exact ih fs fs1 t h p hpr
      | file =>
        rw [hl] at h
        cases h
        rfl
    | none =>
      rw [hl] at h
      rw [ih ⟨(d, FsEntry.dir) :: fs.entries⟩ fs1 t h p hpr,
        FS.lookup_cons, if_neg (fun hdp => hpd hdp.symm)]

theorem not_mem_dirChain_dirname (output : FsPath) :
    output ∉ dirChain (dirname output) := by
  intro hmem
  unfold dirChain at hmem
  simp only [List.mem_map, List.mem_range] at hmem
  obtain ⟨i, hi, heq⟩ := hmem
  cases output with
  | nil => simp [dirname] at hi
  | cons a t =>
    have hlen : ((dirname (a :: t)).take (i + 1)).length = (a :: t).length := by
      rw [heq]
    have hd : (dirname (a :: t)).length = t.length := by
      simp [dirname]
    rw [List.length_take] at hlen
    simp only [List.length_cons] at hlen
    omega

/-! ### Evaluation lemmas for the four control paths of `genOg` -/

theorem genOg_skip (raster : String → Except String Unit) (ogSvg title : String)
    (output : FsPath) (fs : FS) (h : existsSync fs output = true) :
    genOg raster ogSvg title output fs = ⟨fs, [], none⟩ := by
  unfold genOg
  rw [if_pos h]

theorem genOg_mkdir_err (raster : String → Except String Unit)
    (ogSvg title : String) (output : FsPath) (fs fs1 : FS) (e : String)
    (hne : existsSync fs output = false)
    (hmk : mkdirGo fs (dirChain (dirname output)) = (fs1, some e)) :
    genOg raster ogSvg title output fs = ⟨fs1, [], some e⟩ := by
  simp only [genOg, hne, Bool.false_eq_true, if_false, hmk]

theorem genOg_raster_ok (raster : String → Except String Unit)
    (ogSvg title : String) (output : FsPath) (fs fs1 : FS)
    (hne : existsSync fs output = false)
    (hmk : mkdirGo fs (dirChain (dirname output)) = (fs1, none))
    (hr : raster (renderSvg ogSvg title) = Except.ok ()) :
    genOg raster ogSvg title output fs =
      ⟨⟨(output, FsEntry.file) :: fs1.entries⟩,
        [Event.info ("Generating " ++ pathToString output)], none⟩ := by
  simp only [genOg, hne, Bool.false_eq_true, if_false, hmk, hr]

theorem genOg_raster_err (raster : String → Except String Unit)
    (ogSvg title : String) (output : FsPath) (fs fs1 : FS) (e : String)
    (hne : existsSync fs output = false)
    (hmk : mkdirGo fs (dirChain (dirname output)) = (fs1, none))
    (hr : raster (renderSvg ogSvg title) = Except.error e) :
    genOg raster ogSvg title output fs =
      ⟨fs1,
        [Event.info ("Generating " ++ pathToString output),
         Event.error "Failed to generate og image" e], none⟩ := by
  simp only [genOg, hne, Bool.false_eq_true, if_false, hmk, hr]

theorem existsSync_eq_true (fs : FS) (p : FsPath) (e : FsEntry)
    (h : fs.lookup p = some e) : existsSync fs p = true := by
  unfold existsSync
  rw [h]
  rfl

theorem existsSync_eq_false (fs : FS) (p : FsPath)
    (h : fs.lookup p = none) : existsSync fs p = false := by
  unfold existsSync
  rw [h]
  rfl

theorem genOg_thrown_none (raster : String → Except String Unit)
    (ogSvg title : String) (output : FsPath) (fs fs1 : FS)
    (hmk : mkdirGo fs (dirChain (dirname output)) = (fs1, none)) :
    (genOg raster ogSvg title output fs).thrown = none := by
  by_cases hex : existsSync fs output = true
  · rw [genOg_skip raster ogSvg title output fs hex]
  · have hne : existsSync fs output = false := by
      cases hx : existsSync fs output
      · rfl
      · exact absurd hx hex
    cases hr : raster (renderSvg ogSvg title) with
    | ok u =>
      cases u
      rw [genOg_raster_ok raster ogSvg title output fs fs1 hne hmk hr]
    | error e2 =>
      rw [genOg_raster_err raster ogSvg title output fs fs1 e2 hne hmk hr]

theorem jsProtoString_ne_empty : ∀ nm ∈ objectProtoKeys, jsProtoString nm ≠ "" := by
  decide

/-! ### The claims -/

/-- C9: the existence short-circuit of `genOg` triggers for any filesystem
entry at the output path, not only a regular file: with any entry (for
example a directory) at `output`, `genOg` returns at once with the
filesystem unchanged, no log, and no thrown error, so no image is ever
produced for that path. -/
theorem claim_C9 (raster : String → Except String Unit) (ogSvg title : String)
    (output : FsPath) (fs : FS) (ent : FsEntry)
    (h : fs.lookup output = some ent) :
    genOg raster ogSvg title output fs = ⟨fs, [], none⟩ :=
  genOg_skip raster ogSvg title output fs (existsSync_eq_true fs output ent h)

/-- Witness for C9 at a concrete state: a directory occupies the output
path, and the call is a complete no-op. -/
theorem claim_C9_witness :
    genOg (fun _ => Except.ok ()) "svg" "Title" ["blog", "p.png"]
        ⟨[(["blog", "p.png"], FsEntry.dir)]⟩
      = ⟨⟨[(["blog", "p.png"], FsEntry.dir)]⟩, [], none⟩ :=
  claim_C9 (fun _ => Except.ok ()) "svg" "Title" ["blog", "p.png"]
    ⟨[(["blog", "p.png"], FsEntry.dir)]⟩ FsEntry.dir (by decide)

/-- C3: a regular file already at the output path makes `genOg` return
immediately with no side effects (state unchanged, no log, no error);
and after a successful first call the output file exists, so a second
call with the same arguments is such a no-op. -/
theorem claim_C3 (raster : String → Except String Unit) (ogSvg title : String)
    (output : FsPath) (fs fs1 : FS) :
    (fs.lookup output = some FsEntry.file →
      genOg raster ogSvg title output fs = ⟨fs, [], none⟩) ∧
    (fs.lookup output = none →
      mkdirGo fs (dirChain (dirname output)) = (fs1, none) →
      raster (renderSvg ogSvg title) = Except.ok () →
      (genOg raster ogSvg title output fs).fs.lookup output
          = some FsEntry.file ∧
      genOg raster ogSvg title output (genOg raster ogSvg title output fs).fs
        = ⟨(genOg raster ogSvg title output fs).fs, [], none⟩) := by
  constructor
  · intro h
    exact genOg_skip raster ogSvg title output fs
      (existsSync_eq_true fs output FsEntry.file h)
  · intro hn hmk hr
    have h1 := genOg_raster_ok raster ogSvg title output fs fs1
      (existsSync_eq_false fs output hn) hmk hr
    rw [h1]
    have hlook : FS.lookup ⟨(output, FsEntry.file) :: fs1.entries⟩ output
        = some FsEntry.file := by
      rw [FS.lookup_cons, if_pos rfl]
    exact ⟨hlook,
      genOg_skip raster ogSvg title output _
        (existsSync_eq_true _ output FsEntry.file hlook)⟩

/-- Witness for C3: on an empty filesystem a call writes the file, and the
repeated call is a no-op. -/
theorem claim_C3_witness :
    (genOg (fun _ => Except.ok ()) "x" "T" ["og", "a.png"] ⟨[]⟩).fs.lookup
        ["og", "a.png"] = some FsEntry.file ∧
    genOg (fun _ => Except.ok ()) "x" "T" ["og", "a.png"]
        (genOg (fun _ => Except.ok ()) "x" "T" ["og", "a.png"] ⟨[]⟩).fs
      = ⟨(genOg (fun _ => Except.ok ()) "x" "T" ["og", "a.png"] ⟨[]⟩).fs,
          [], none⟩ :=
  (claim_C3 (fun _ => Except.ok ()) "x" "T" ["og", "a.png"] ⟨[]⟩
    ⟨[(["og"], FsEntry.dir)]⟩).2 (by decide) (by decide) rfl

/-- C1 as stated is false on the code: in the source `mkdirSync` sits
outside the `try`, so a directory-creation failure is not caught.  At this
concrete input (a regular file occupies the parent directory path, no file
at the output path) `genOg` propagates a thrown failure instead of
returning normally. -/
theorem claim_C1_counterexample :
    (genOg (fun _ => Except.ok ()) "svg" "Post" ["cache", "og", "img.png"]
      ⟨[(["cache"], FsEntry.file)]⟩).thrown ≠ none := by
  decide

/-- C1 amended: failures raised inside the `try` (the rasterization,
encoding and file write performed by the `sharp` pipeline) are caught
inside `genOg`, which then returns normally; a failure of the directory
creation step, which sits outside the `try`, is not caught and propagates
to the caller. -/
theorem claim_C1_amended (raster : String → Except String Unit)
    (ogSvg title : String) (output : FsPath) (fs fs1 : FS) (e : String) :
    (mkdirGo fs (dirChain (dirname output)) = (fs1, none) →
      (genOg raster ogSvg title output fs).thrown = none) ∧
    (existsSync fs output = false →
      mkdirGo fs (dirChain (dirname output)) = (fs1, some e) →
      (genOg raster ogSvg title output fs).thrown = some e) := by
  constructor
  · intro hmk
    exact genOg_thrown_none raster ogSvg title output fs fs1 hmk
  · intro hne hmk
    rw [genOg_mkdir_err raster ogSvg title output fs fs1 e hne hmk]

/-- Witness for amended C1: a rasterization failure is contained, while a
blocked directory creation throws. -/
theorem claim_C1_witness :
    (genOg (fun _ => Except.error "bad svg") "s" "T" ["a", "b.png"]
      ⟨[]⟩).thrown = none ∧
    (genOg (fun _ => Except.ok ()) "s" "T" ["a", "b.png"]
      ⟨[(["a"], FsEntry.file)]⟩).thrown = some "EEXIST" :=
  ⟨(claim_C1_amended (fun _ => Except.error "bad svg") "s" "T" ["a", "b.png"]
      ⟨[]⟩ ⟨[(["a"], FsEntry.dir)]⟩ "z").1 (by decide),
   (claim_C1_amended (fun _ => Except.ok ()) "s" "T" ["a", "b.png"]
      ⟨[(["a"], FsEntry.file)]⟩ ⟨[(["a"], FsEntry.file)]⟩ "EEXIST").2
      (by decide) (by decide)⟩

/-- C7 as stated is false on the code: the warning logged by the catch
block is `console.error with the fixed text Failed to generate og image`
plus the cause; it does not identify the failed output path.  At these two
concrete inputs, which differ only in the output path, the warning entries
of the two logs are identical, so the warning cannot identify the path. -/
theorem claim_C7_counterexample :
    (["og", "a.png"] : FsPath) ≠ ["og", "b.png"] ∧
    (genOg (fun _ => Except.error "encode failed") "s" "T" ["og", "a.png"]
        ⟨[]⟩).log.drop 1
      = [Event.error "Failed to generate og image" "encode failed"] ∧
    (genOg (fun _ => Except.error "encode failed") "s" "T" ["og", "b.png"]
        ⟨[]⟩).log.drop 1
      = [Event.error "Failed to generate og image" "encode failed"] := by
  refine ⟨by decide, by decide, by decide⟩

/-- C7 amended: when the rasterization, encoding or write fails, `genOg`
returns normally and the failure is logged non-fatally with the fixed
message `Failed to generate og image` together with the underlying cause;
the output path appears only in the preceding `Generating` info entry, not
in the warning itself. -/
theorem claim_C7_amended (raster : String → Except String Unit)
    (ogSvg title : String) (output : FsPath) (fs fs1 : FS) (e : String)
    (hne : fs.lookup output = none)
    (hmk : mkdirGo fs (dirChain (dirname output)) = (fs1, none))
    (hr : raster (renderSvg ogSvg title) = Except.error e) :
    (genOg raster ogSvg title output fs).log
      = [Event.info ("Generating " ++ pathToString output),
         Event.error "Failed to generate og image" e] ∧
    (genOg raster ogSvg title output fs).thrown = none := by
  rw [genOg_raster_err raster ogSvg title output fs fs1 e
    (existsSync_eq_false fs output hne) hmk hr]
  exact ⟨rfl, rfl⟩

/-- Witness for amended C7 at a concrete failing call. -/
theorem claim_C7_witness :
    (genOg (fun _ => Except.error "boom") "tpl" "Hi" ["img", "x.png"]
        ⟨[]⟩).log
      = [Event.info "Generating img/x.png",
         Event.error "Failed to generate og image" "boom"] ∧
    (genOg (fun _ => Except.error "boom") "tpl" "Hi" ["img", "x.png"]
        ⟨[]⟩).thrown = none := by
  have h := claim_C7_amended (fun _ => Except.error "boom") "tpl" "Hi"
    ["img", "x.png"] ⟨[]⟩ ⟨[(["img"], FsEntry.dir)]⟩ "boom"
    (by decide) (by decide) rfl
  exact ⟨h.1.trans (by decide), h.2⟩

/-- C10: a failed call is not atomic: when the rasterization or write
fails after the existence check, the call still returns normally, the
final state is exactly the one produced by the directory creation (every
directory of the parent chain exists), and only the output file itself is
absent. -/
theorem claim_C10 (raster : String → Except String Unit)
    (ogSvg title : String) (output : FsPath) (fs fs1 : FS) (e : String)
    (hne : fs.lookup output = none)
    (hmk : mkdirGo fs (dirChain (dirname output)) = (fs1, none))
    (hr : raster (renderSvg ogSvg title) = Except.error e) :
    (genOg raster ogSvg title output fs).thrown = none ∧
    (genOg raster ogSvg title output fs).fs = fs1 ∧
    (∀ d ∈ dirChain (dirname output),
      (genOg raster ogSvg title output fs).fs.lookup d = some FsEntry.dir) ∧
    (genOg raster ogSvg title output fs).fs.lookup output = none := by
  rw [genOg_raster_err raster ogSvg title output fs fs1 e
    (existsSync_eq_false fs output hne) hmk hr]
  refine ⟨rfl, rfl, ?_, ?_⟩
  · intro d hd
    exact (mkdirGo_ok (dirChain (dirname output)) fs fs1 hmk).2 d hd
  · have h := mkdirGo_other (dirChain (dirname output)) fs fs1 none hmk
      output (not_mem_dirChain_dirname output)
    exact h.trans hne

/-- Witness for C10: a concrete failing call leaves the created directory
chain in place and no output file. -/
theorem claim_C10_witness :
    (genOg (fun _ => Except.error "boom") "t" "Hello" ["a", "b", "c.png"]
        ⟨[]⟩).thrown = none ∧
    (genOg (fun _ => Except.error "boom") "t" "Hello" ["a", "b", "c.png"]
        ⟨[]⟩).fs = ⟨[(["a", "b"], FsEntry.dir), (["a"], FsEntry.dir)]⟩ ∧
    (genOg (fun _ => Except.error "boom") "t" "Hello" ["a", "b", "c.png"]
        ⟨[]⟩).fs.lookup ["a"] = some FsEntry.dir ∧
    (genOg (fun _ => Except.error "boom") "t" "Hello" ["a", "b", "c.png"]
        ⟨[]⟩).fs.lookup ["a", "b"] = some FsEntry.dir ∧
    (genOg (fun _ => Except.error "boom") "t" "Hello" ["a", "b", "c.png"]
        ⟨[]⟩).fs.lookup ["a", "b", "c.png"] = none := by
  have h := claim_C10 (fun _ => Except.error "boom") "t" "Hello"
    ["a", "b", "c.png"] ⟨[]⟩ ⟨[(["a", "b"], FsEntry.dir), (["a"], FsEntry.dir)]⟩
    "boom" (by decide) (by decide) rfl
  exact ⟨h.1, h.2.1, h.2.2.1 ["a"] (by decide), h.2.2.1 ["a", "b"] (by decide),
    h.2.2.2⟩

/-- C8 as stated is false on the code only in its error clause: the three
placeholders are indeed all replaced by the empty string, but an empty
title does not guarantee completion without error, because the
directory-creation step can still throw.  At this concrete input the title
is empty, no file exists at the output path, yet the call propagates a
thrown failure. -/
theorem claim_C8_counterexample :
    ("" : String).data = [] ∧
    (genOg (fun _ => Except.ok ()) "tpl" "" ["site", "og.png"]
      ⟨[(["site"], FsEntry.file)]⟩).thrown ≠ none := by
  refine ⟨rfl, by decide⟩

/-- C8 amended: for every empty or whitespace-only title the segmentation
is empty and the three placeholders `title1`, `title2`, `title3` are all
substituted with the empty string; and the call completes without a
thrown error provided the directory creation succeeds (its failure mode
is independent of the title). -/
theorem claim_C8_amended (raster : String → Except String Unit)
    (ogSvg title : String) (output : FsPath) (fs fs1 : FS)
    (hws : ∀ c ∈ title.data, isJsWs c = true)
    (hmk : mkdirGo fs (dirChain (dirname output)) = (fs1, none)) :
    titleLines title = [] ∧
    dataLookup (titleLines title) "title1" = "" ∧
    dataLookup (titleLines title) "title2" = "" ∧
    dataLookup (titleLines title) "title3" = "" ∧
    (genOg raster ogSvg title output fs).thrown = none := by
  have hlines : titleLines title = [] := by
    unfold titleLines
    rw [jsTrim_eq_nil_of_ws title.data hws]
    rfl
  rw [hlines]
  exact ⟨rfl, by decide, by decide, by decide,
    genOg_thrown_none raster ogSvg title output fs fs1 hmk⟩

/-- Witness for amended C8 at the whitespace-only title consisting of a
space, a tab and a newline. -/
theorem claim_C8_witness :
    titleLines " \t\n" = [] ∧
    dataLookup (titleLines " \t\n") "title1" = "" ∧
    dataLookup (titleLines " \t\n") "title2" = "" ∧
    dataLookup (titleLines " \t\n") "title3" = "" ∧
    (genOg (fun _ => Except.ok ()) "tpl" " \t\n" ["out", "og.png"]
      ⟨[]⟩).thrown = none := by
  have h := claim_C8_amended (fun _ => Except.ok ()) "tpl" " \t\n"
    ["out", "og.png"] ⟨[]⟩ ⟨[(["out"], FsEntry.dir)]⟩ (by decide) (by decide)
  exact ⟨h.1, h.2.1, h.2.2.1, h.2.2.2.1, h.2.2.2.2⟩

/-- C2 as stated is false on the code: the word-wrap does not break at
whitespace boundaries only.  The concrete title consisting of forty
letters `a` is a single word with no whitespace, yet the split produces
two segments of ten and thirty characters, breaking the word mid-run:
positions before the final thirty characters admit no match of the
separator regexp, so the ECMAScript split emits the skipped prefix as its
own piece. -/
theorem claim_C2_counterexample :
    (String.mk (List.replicate 40 'a')).data.all (fun c => !isJsWs c) = true ∧
    titleLines (String.mk (List.replicate 40 'a'))
      = [String.mk (List.replicate 10 'a'), String.mk (List.replicate 30 'a')] := by
  refine ⟨by decide, by decide⟩

/-- C2 amended: the segmentation is a greedy word-wrap only on titles
whose trimmed form contains no line terminator and no whitespace-free run
longer than 30 characters (equivalently: every window of 31 consecutive
characters contains whitespace).  Under those hypotheses every produced
segment has at most 30 characters; a longer whitespace-free run is broken
mid-word, as the counterexample shows, and can produce longer segments. -/
theorem claim_C2_amended (title : String)
    (hdot : ∀ c ∈ jsTrim title.data, isDotChar c = true)
    (hwin : ∀ r, r + 30 < (jsTrim title.data).length →
      ∃ c ∈ ((jsTrim title.data).drop r).take 31, isJsWs c = true) :
    ∀ seg ∈ titleLines title, seg.length ≤ 30 := by
  intro seg hseg
  unfold titleLines at hseg
  by_cases hnil : jsTrim title.data = []
  · rw [hnil] at hseg
    simp [jsSplit30, filterB] at hseg
  · have hE : (jsTrim title.data).isEmpty = false := by
      cases htr : jsTrim title.data with
      | nil => exact absurd htr hnil
      | cons a t => rfl
    unfold jsSplit30 at hseg
    rw [hE] at hseg
    simp only [Bool.false_eq_true, if_false] at hseg
    unfold filterB at hseg
    have hm := List.mem_filter.mp hseg
    have h30 := splitGo_pieces (jsTrim title.data) hdot hwin
      ((jsTrim title.data).length + 1) 0 (by omega) seg hm.1
    rcases h30 with h | h
    · rw [h] at hm
      simp at hm
    · exact h

/-- Witness for amended C2: the two-word title `hello world` satisfies the
hypotheses (its trimmed form is shorter than the window), and its single
segment is within the bound. -/
theorem claim_C2_witness : ("hello world" : String).length ≤ 30 := by
  have hlen : (jsTrim ("hello world" : String).data).length = 11 := by decide
  have hmem : ("hello world" : String) ∈ titleLines "hello world" := by decide
  exact claim_C2_amended "hello world" (by decide)
    (fun r hr => absurd hr (by rw [hlen]; omega)) "hello world" hmem

/-- C6: a title of exactly 30 characters with no whitespace is segmented
into the single segment equal to the title; a title of 31 characters
whose only whitespace is the character at position 28 is segmented into
the 28 characters before that whitespace and the 2 characters after it. -/
theorem claim_C6 :
    (∀ t : String, t.data.length = 30 → (∀ c ∈ t.data, isJsWs c = false) →
      titleLines t = [t]) ∧
    (∀ (t : String) (u v : List Char) (c : Char),
      t.data = u ++ c :: v → u.length = 28 → v.length = 2 →
      isJsWs c = true →
      (∀ x ∈ u, isJsWs x = false) → (∀ x ∈ v, isJsWs x = false) →
      titleLines t = [⟨u⟩, ⟨v⟩]) := by
  constructor
  · intro t h30 hws
    have hne : t.data ≠ [] := by
      intro h
      rw [h] at h30
      exact absurd h30 (by decide)
    unfold titleLines
    rw [jsTrim_eq_self_of_all t.data hws,
      jsSplit30_small t.data hne (Nat.le_of_eq h30)
        (fun c hc => isDotChar_of_not_isJsWs c (hws c hc)),
      filterB_single ⟨t.data⟩ (strMk_ne_empty t.data hne)]
  · intro t u v c heq hu hv hc hud hvd
    have hvne : v ≠ [] := by
      intro h
      rw [h] at hv
      exact absurd hv (by decide)
    have hune : u ≠ [] := by
      intro h
      rw [h] at hu
      exact absurd hu (by decide)
    unfold titleLines
    rw [heq]
    have htrim : jsTrim (u ++ c :: v) = u ++ c :: v := by
      apply jsTrim_eq_self
      · intro x hx
        cases u with
        | nil => exact absurd rfl hune
        | cons u0 u' =>
          rw [List.cons_append, List.head?_cons] at hx
          injection hx with hx0
          rw [← hx0]
          exact hud u0 (List.mem_cons_self u0 u')
      · intro x hx
        rw [List.getLast?_append_of_ne_nil u (List.cons_ne_nil c v),
          show c :: v = [c] ++ v from rfl,
          List.getLast?_append_of_ne_nil [c] hvne] at hx
        obtain ⟨hne2, hxeq⟩ :=
          List.mem_getLast?_eq_getLast (l := v) (x := x) (Option.mem_def.mpr hx)
        exact hvd x (hxeq ▸ List.getLast_mem hne2)
    rw [htrim, jsSplit30_break28 u v c hu hv hc hud hvd,
      filterB_pair ⟨u⟩ ⟨v⟩ (strMk_ne_empty u hune) (strMk_ne_empty v hvne)]

/-- Witness for C6 at the 30-letter title and at the 31-character title
with its whitespace at position 28. -/
theorem claim_C6_witness :
    titleLines (String.mk (List.replicate 30 'a'))
      = [String.mk (List.replicate 30 'a')] ∧
    titleLines (String.mk (List.replicate 28 'a' ++ ' ' :: ['b', 'b']))
      = [String.mk (List.replicate 28 'a'), String.mk ['b', 'b']] :=
  ⟨claim_C6.1 (String.mk (List.replicate 30 'a')) (by decide) (by decide),
   claim_C6.2 (String.mk (List.replicate 28 'a' ++ ' ' :: ['b', 'b']))
     (List.replicate 28 'a') ['b', 'b'] ' ' rfl (by decide) (by decide)
     (by decide) (by decide) (by decide)⟩

/-- C4 as stated is false on the code: the object literal holding the
three segments inherits `Object.prototype`, and `data[name]` walks the
prototype chain, so a marker naming an inherited member is replaced with
the truthy inherited value's string form, not the empty string.  At this
concrete input the marker name `constructor` is outside the fixed set of
three, yet its substitution is the non-empty string form of the inherited
constructor function. -/
theorem claim_C4_counterexample :
    ("constructor" : String) ∉ (["title1", "title2", "title3"] : List String) ∧
    jsReplace (dataLookup [])
        (lbrace :: lbrace :: ("constructor".data ++ rbrace :: rbrace :: []))
      = (jsProtoString "constructor").data ∧
    jsProtoString "constructor" ≠ "" := by
  refine ⟨by decide, by decide, by decide⟩

/-- C4 amended: in the substitution step a placeholder marker (double
braces around a non-empty brace-free name) is replaced by
`data[name] || ''`: the corresponding line segment for the recognized
names `title1`, `title2`, `title3` (empty string when that segment was
not produced); the string form of the inherited value — which is never
empty — for a name of an `Object.prototype` member reached through the
prototype chain (`constructor`, `toString`, `__proto__`, ...); and the
empty string for every other name. -/
theorem claim_C4 (lines : List String) (pre mname rest : List Char)
    (hne : mname ≠ []) (hnb : ∀ ch ∈ mname, ch ≠ rbrace)
    (hpre : ∀ ch ∈ pre, ch ≠ lbrace) :
    jsReplace (dataLookup lines)
        (pre ++ lbrace :: lbrace :: (mname ++ rbrace :: rbrace :: rest))
      = pre ++ (dataLookup lines ⟨mname⟩).data
          ++ jsReplace (dataLookup lines) rest ∧
    ((⟨mname⟩ : String) ∉ (["title1", "title2", "title3"] : List String) →
      (⟨mname⟩ : String) ∉ objectProtoKeys →
      dataLookup lines ⟨mname⟩ = "") ∧
    ((⟨mname⟩ : String) ∉ (["title1", "title2", "title3"] : List String) →
      (⟨mname⟩ : String) ∈ objectProtoKeys →
      dataLookup lines ⟨mname⟩ = jsProtoString ⟨mname⟩ ∧
        jsProtoString ⟨mname⟩ ≠ "") ∧
    dataLookup lines "title1" = jsOr lines[0]? ∧
    dataLookup lines "title2" = jsOr lines[1]? ∧
    dataLookup lines "title3" = jsOr lines[2]? := by
  refine ⟨?_, ?_, ?_, by simp [dataLookup], by simp [dataLookup],
    by simp [dataLookup]⟩
  · rw [jsReplace_append_no_lb (dataLookup lines) pre _ hpre,
      jsReplace_marker (dataLookup lines) mname rest hne hnb,
      List.append_assoc]
  · intro hnotin hnp
    have h1 : ¬((⟨mname⟩ : String) = "title1") := fun h => hnotin (by rw [h]; simp)
    have h2 : ¬((⟨mname⟩ : String) = "title2") := fun h => hnotin (by rw [h]; simp)
    have h3 : ¬((⟨mname⟩ : String) = "title3") := fun h => hnotin (by rw [h]; simp)
    simp [dataLookup, h1, h2, h3, hnp]
  · intro hnotin hp
    have h1 : ¬((⟨mname⟩ : String) = "title1") := fun h => hnotin (by rw [h]; simp)
    have h2 : ¬((⟨mname⟩ : String) = "title2") := fun h => hnotin (by rw [h]; simp)
    have h3 : ¬((⟨mname⟩ : String) = "title3") := fun h => hnotin (by rw [h]; simp)
    exact ⟨by simp [dataLookup, h1, h2, h3, hp],
      jsProtoString_ne_empty ⟨mname⟩ hp⟩

/-- Witness for amended C4: a recognized marker takes the second segment,
a plain unrecognized name takes the empty string, and a prototype-chain
name takes the non-empty inherited string. -/
theorem claim_C4_witness :
    jsReplace (dataLookup ["One", "Two"])
        ("ab".data ++ lbrace :: lbrace ::
          ("title2".data ++ rbrace :: rbrace :: "cd".data))
      = "ab".data ++ (dataLookup ["One", "Two"] "title2").data
          ++ jsReplace (dataLookup ["One", "Two"]) "cd".data ∧
    dataLookup ["One", "Two"] "other" = "" ∧
    dataLookup ["One", "Two"] "toString" = jsProtoString "toString" :=
  ⟨(claim_C4 ["One", "Two"] "ab".data "title2".data "cd".data
      (by decide) (by decide) (by decide)).1,
   (claim_C4 ["One", "Two"] "ab".data "other".data "cd".data
      (by decide) (by decide) (by decide)).2.1 (by decide) (by decide),
   ((claim_C4 ["One", "Two"] "ab".data "toString".data "cd".data
      (by decide) (by decide) (by decide)).2.2.1 (by decide) (by decide)).1⟩

/-- C5: the rendered document depends only on the first three segments of
the word-wrapped title: rendering with the full segment list equals
rendering with the list truncated to its first three elements, so all
text beyond the third segment is absent from the output document and no
overflow indicator is produced. -/
theorem claim_C5 (ogSvg title : String) :
    renderSvg ogSvg title
      = ⟨jsReplace (dataLookup ((titleLines title).take 3)) ogSvg.data⟩ := by
  unfold renderSvg
  have h : dataLookup ((titleLines title).take 3) = dataLookup (titleLines title) := by
    funext nm
    simp [dataLookup, List.getElem?_take]
  rw [h]
